import Mathlib

/-
Verification of the convr unit-conversion core.

Shallow embedding of the Rust sources (src/core/src/{lib,prelude,length,
temperature}.rs).  Modelling conventions:

* The f64 quantities are modelled as exact rationals.  Every arithmetic
  step of the conversion algorithm is a single multiplication, addition or
  subtraction; the claims examined here are either exact algebraic facts or
  come with a 0.001 tolerance, so the exact-rational model is the faithful
  idealisation the spec itself reasons with.
* The anyhow error values are modelled as a closed inductive carrying the
  data interpolated into each error message in the source.
* The expression FAMILIES.iter().find(...).map(...).unwrap() in lib.rs
  panics when find returns None; the model makes that outcome an explicit
  constructor rather than hiding it.
* Rust String::to_lowercase is modelled by an ASCII case fold over the
  character list; every token appearing in the registry is ASCII.
-/

namespace Convr

/-- Model of Rust str::to_lowercase restricted to ASCII folding (every token
in the registry and every token exercised by the claims is ASCII; on
non-ASCII characters relevant here, such as Arabic-Indic digits, both the
source function and this model are the identity). -/
def to_lowercase (s : String) : String := ⟨s.data.map Char.toLower⟩

/-- Single unit of measurement within a family (struct Unit, prelude.rs). -/
structure Unit where
  names : List String
  symbol : String
  ratio : ℚ
  difference : ℚ
deriving DecidableEq, Repr

/-- Constructor Unit::new: lower-cases every name and the symbol. -/
def Unit.new (names : List String) (sym : String) (ratio difference : ℚ) : Unit :=
  ⟨names.map to_lowercase, to_lowercase sym, ratio, difference⟩

/-- Quantity plus free-form unit token (struct Value, prelude.rs). -/
structure Value where
  quantity : ℚ
  unit : String
deriving DecidableEq, Repr

/-- Family of mutually convertible units (struct Family, prelude.rs). -/
structure Family where
  id : String
  units : List Unit
  base_unit : String
deriving DecidableEq, Repr

/-- Typed conversion failures: the two anyhow! sites in prelude.rs, each
carrying exactly the data interpolated into its format string. -/
inductive ConvError where
  /-- anyhow!("unknown unit: {}", unit) raised in Family::to_base_unit. -/
  | unknownUnit (unit : String)
  /-- anyhow!("failed to convert {} from {} to {}", base_qty, base_unit, unit)
  raised in Family::to_dest_unit. -/
  | conversionTarget (base_qty : ℚ) (base_unit : String) (target : String)
deriving DecidableEq, Repr

/-- Family::find_unit: case-insensitive lookup of a token against the names
or the symbol of each unit, first match winning. -/
def Family.find_unit (f : Family) (unit : String) : Option Unit :=
  let u := to_lowercase unit
  f.units.find? fun c => c.names.contains u || c.symbol == u

/-- Family::can_convert. -/
def Family.can_convert (f : Family) (unit : String) : Bool :=
  (f.find_unit unit).isSome

/-- Family::to_base_unit: (quantity + difference) * ratio, relabelled with
the family base-unit token. -/
def Family.to_base_unit (f : Family) (v : Value) : Except ConvError Value :=
  match f.find_unit v.unit with
  | some u => .ok ⟨(v.quantity + u.difference) * u.ratio, f.base_unit⟩
  | none => .error (.unknownUnit v.unit)

/-- Family::to_dest_unit: base_qty * (1/ratio) - difference, relabelled with
the caller-supplied target token. -/
def Family.to_dest_unit (f : Family) (base_qty : ℚ) (unit : String) :
    Except ConvError Value :=
  match f.find_unit unit with
  | some c => .ok ⟨base_qty * (1 / c.ratio) - c.difference, unit⟩
  | none => .error (.conversionTarget base_qty f.base_unit unit)

/-- Family::convert: short-circuit on an exact string match, otherwise
normalise to the base unit (skipped when the source token already equals the
base-unit token) and project to the destination unit. -/
def Family.convert (f : Family) (v : Value) (u : String) : Except ConvError Value :=
  if v.unit = u then .ok v
  else
    match (if v.unit ≠ f.base_unit then f.to_base_unit v else .ok v) with
    | .ok base_val => f.to_dest_unit base_val.quantity u
    | .error e => .error e

namespace length

/-- length::family(), length.rs. -/
def family : Family :=
  { id := "Lengths"
    base_unit := "M"
    units :=
      [ Unit.new ["meter", "meters"] "M" 1 0
      , Unit.new ["centimeter", "centimeters"] "CM" (1 / 100) 0
      , Unit.new ["millimeter", "millimeters"] "MM" (1 / 1000) 0
      , Unit.new ["kilometer", "kilometers"] "KM" 1000 0
      , Unit.new ["foot", "feet"] "ft" 0.3048 0
      , Unit.new ["inch", "inches"] "in" 0.0254 0
      , Unit.new ["yard", "yards"] "yd" 0.9144 0
      , Unit.new ["mile", "miles"] "mi" 1609.344 0
      , Unit.new ["nautical mile", "nautical miles"] "nmi" 1852.0 0 ] }

end length

namespace temperature

/-- temperature::family(), temperature.rs. -/
def family : Family :=
  { id := "Temperature"
    base_unit := "K"
    units :=
      [ Unit.new ["kelvin", "kelvins"] "K" 1 0
      , Unit.new ["celsius"] "C" 1 273.15
      , Unit.new ["fahrenheit"] "F" (5 / 9) 459.67
      , Unit.new ["rankine"] "R" (5 / 9) 0 ] }

end temperature

/-- The lazily initialised registry (static FAMILIES, lib.rs). -/
def FAMILIES : List Family := [length.family, temperature.family]

/-- Observable outcome of the public convert entry point.  The panicked
constructor records the panic of Option::unwrap on None in lib.rs. -/
inductive Outcome where
  | ok (v : Value)
  | err (e : ConvError)
  | panicked
deriving DecidableEq, Repr

/-- Public convert (lib.rs): select the first family containing the source
unit and delegate; the source unwraps the Option, so a missing family
panics instead of producing an error value. -/
def convert (v : Value) (to_unit : String) : Outcome :=
  match FAMILIES.find? fun f => f.can_convert v.unit with
  | some f =>
    match f.convert v to_unit with
    | .ok w => .ok w
    | .error e => .err e
  | none => .panicked

/-- Nearest integer with ties to even: the rounding applied by the Rust
float formatter when a precision is requested. -/
def roundHalfEven (x : ℚ) : ℤ :=
  if x - ⌊x⌋ < 1 / 2 then ⌊x⌋
  else if x - ⌊x⌋ > 1 / 2 then ⌊x⌋ + 1
  else if ⌊x⌋ % 2 = 0 then ⌊x⌋ else ⌊x⌋ + 1

/-- Decimal rendering of a quantity with exactly two digits after the
decimal point: the fixed-precision format spec {:.2} used by the Display
impl for Value in prelude.rs. -/
def fmt2 (q : ℚ) : String :=
  let n : ℤ := roundHalfEven (q * 100)
  let sign : String := if q < 0 then "-" else ""
  let a : ℕ := n.natAbs
  sign ++ toString (a / 100) ++ String.mk ['.', Nat.digitChar (a / 10 % 10), Nat.digitChar (a % 10)]

/-- fmt::Display for Value (prelude.rs): write!(f, "{:.2}{}", quantity, unit). -/
def Value.display (v : Value) : String := fmt2 v.quantity ++ v.unit

/-- The unit-to-base round trips the spec quantifies over: one (symbol,
base-unit token) pair per built-in unit. -/
def builtinPairs : List (String × String) :=
  FAMILIES.flatMap fun f => f.units.map fun u => (u.symbol, f.base_unit)

/-- Round trip through the public entry point: convert a quantity from the
unit with token sym to the base-unit token, then back to sym; some q' when
both conversions succeed. -/
def roundTripQ (sym base : String) (q : ℚ) : Option ℚ :=
  match convert ⟨q, sym⟩ base with
  | .ok v1 =>
    match convert v1 sym with
    | .ok v2 => some v2.quantity
    | _ => none
  | _ => none

end Convr

namespace Convr

/-! Helper lemmas about the registry and the conversion engine. -/

lemma find?_families {v : Value} {f : Family}
    (h : FAMILIES.find? (fun g => g.can_convert v.unit) = some f) :
    (f = length.family ∨ f = temperature.family) ∧ f.can_convert v.unit := by
  have hmem := List.mem_of_find?_eq_some h
  have hp := List.find?_some h
  refine ⟨?_, hp⟩
  simpa [FAMILIES] using hmem

lemma find_unit_mem {f : Family} {s : String} {u : Unit}
    (h : f.find_unit s = some u) : u ∈ f.units :=
  List.mem_of_find?_eq_some h

lemma find_unit_congr (f : Family) {s t : String}
    (h : to_lowercase s = to_lowercase t) : f.find_unit s = f.find_unit t := by
  unfold Family.find_unit
  rw [h]

lemma base_unit_identity {f : Family}
    (hf : f = length.family ∨ f = temperature.family) {u : Unit}
    (hu : f.find_unit f.base_unit = some u) : u.ratio = 1 ∧ u.difference = 0 := by
  rcases hf with rfl | rfl
  · rw [show length.family.find_unit length.family.base_unit
        = some (Unit.new ["meter", "meters"] "M" 1 0) from rfl] at hu
    cases hu
    exact ⟨rfl, rfl⟩
  · rw [show temperature.family.find_unit temperature.family.base_unit
        = some (Unit.new ["kelvin", "kelvins"] "K" 1 0) from rfl] at hu
    cases hu
    exact ⟨rfl, rfl⟩

lemma ratio_ne_zero {f : Family}
    (hf : f = length.family ∨ f = temperature.family) :
    ∀ u ∈ f.units, u.ratio ≠ 0 := by
  rcases hf with rfl | rfl <;> intro u hu <;> fin_cases hu <;> norm_num [Unit.new]

lemma convert_unfold {v : Value} {t : String} {f : Family}
    (h : FAMILIES.find? (fun g => g.can_convert v.unit) = some f) :
    convert v t = match f.convert v t with
      | .ok w => .ok w
      | .error e => .err e := by
  unfold convert
  rw [h]

lemma famConvert_general {f : Family}
    (hf : f = length.family ∨ f = temperature.family) (v : Value) (t : String)
    (hne : v.unit ≠ t) {su du : Unit}
    (hsu : f.find_unit v.unit = some su) (hdu : f.find_unit t = some du) :
    f.convert v t
      = .ok ⟨((v.quantity + su.difference) * su.ratio) * (1 / du.ratio) - du.difference, t⟩ := by
  unfold Family.convert
  rw [if_neg hne]
  by_cases hb : v.unit = f.base_unit
  · have hnb : ¬v.unit ≠ f.base_unit := by simp [hb]
    rw [if_neg hnb]
    show f.to_dest_unit v.quantity t = _
    unfold Family.to_dest_unit
    rw [hdu]
    have hid := base_unit_identity hf (hb ▸ hsu)
    rw [hid.1, hid.2]
    norm_num
  · rw [if_pos hb]
    unfold Family.to_base_unit
    rw [hsu]
    show f.to_dest_unit ((v.quantity + su.difference) * su.ratio) t = _
    unfold Family.to_dest_unit
    rw [hdu]

end Convr

namespace Convr

lemma tol_of_eq {a b : ℚ} (h : a = b) : |a - b| ≤ 1 / 1000 := by
  rw [h, sub_self, abs_zero]
  norm_num

lemma digitChar_isDigit {m : ℕ} (h : m < 10) : (Nat.digitChar m).isDigit := by
  interval_cases m <;> decide

/-- C1: converting a Value whose unit token ("zorp") matches no registered
family does NOT produce the typed unknown-unit failure the spec promises:
the public convert in lib.rs unwraps the None returned by the family search
and panics, for every target token. -/
theorem convert_unknown_source_panics :
    ∀ t : String, convert ⟨100, "zorp"⟩ t = .panicked :=
  fun _ => rfl

/-- C2: when the source token resolves in the selected family and the
target token resolves in the same family, and the two tokens differ as
strings, convert returns exactly
((quantity + source.difference) * source.ratio) * (1/destination.ratio)
- destination.difference, labelled with the caller-supplied target token;
the rational model applies no rounding. -/
theorem convert_formula (v : Value) (t : String) (f : Family) (su du : Unit)
    (hfam : FAMILIES.find? (fun g => g.can_convert v.unit) = some f)
    (hne : v.unit ≠ t)
    (hsu : f.find_unit v.unit = some su)
    (hdu : f.find_unit t = some du) :
    convert v t
      = .ok ⟨((v.quantity + su.difference) * su.ratio) * (1 / du.ratio) - du.difference, t⟩ := by
  rw [convert_unfold hfam, famConvert_general (find?_families hfam).1 v t hne hsu hdu]

theorem convert_formula_witness :
    ("c" : String) ≠ "f" ∧
    convert ⟨100, "c"⟩ "f"
      = .ok ⟨((100 + (273.15 : ℚ)) * 1) * (1 / (5 / 9)) - 459.67, "f"⟩ :=
  ⟨by decide,
    convert_formula ⟨100, "c"⟩ "f" temperature.family
      (Unit.new ["celsius"] "C" 1 273.15) (Unit.new ["fahrenheit"] "F" (5 / 9) 459.67)
      rfl (by decide) rfl rfl⟩

/-- C4: when the source unit belongs to a registered family, an exactly
equal target token short-circuits and returns the value unchanged, and a
target token equal up to case bypasses the shortcut yet still preserves the
quantity through the general path (identity arithmetic). -/
theorem convert_shortcut_and_case (v : Value) (t : String) (f : Family)
    (hfam : FAMILIES.find? (fun g => g.can_convert v.unit) = some f)
    (hl : to_lowercase t = to_lowercase v.unit) :
    convert v v.unit = .ok v ∧ convert v t = .ok ⟨v.quantity, t⟩ := by
  have hf := (find?_families hfam).1
  constructor
  · rw [convert_unfold hfam]
    unfold Family.convert
    rw [if_pos rfl]
  · by_cases hne : v.unit = t
    · subst hne
      rw [convert_unfold hfam]
      unfold Family.convert
      rw [if_pos rfl]
    · obtain ⟨su, hsu⟩ : ∃ su, f.find_unit v.unit = some su := by
        have hc := (find?_families hfam).2
        unfold Family.can_convert at hc
        exact Option.isSome_iff_exists.mp hc
      have hdu : f.find_unit t = some su := (find_unit_congr f hl).trans hsu
      rw [convert_unfold hfam,
        famConvert_general hf v t (fun he => hne he) hsu hdu]
      have hr : su.ratio ≠ 0 := ratio_ne_zero hf su (find_unit_mem hsu)
      simp only [Outcome.ok.injEq, Value.mk.injEq]
      refine ⟨?_, trivial⟩
      field_simp

theorem convert_shortcut_and_case_witness :
    to_lowercase "MeTeR" = to_lowercase "meter" ∧
    (convert ⟨7, "meter"⟩ "meter" = .ok ⟨7, "meter"⟩ ∧
     convert ⟨7, "meter"⟩ "MeTeR" = .ok ⟨7, "MeTeR"⟩) :=
  ⟨rfl, convert_shortcut_and_case ⟨7, "meter"⟩ "MeTeR" length.family rfl rfl⟩

/-- C7: when the source unit resolves to a family but the target token
matches no unit of that family, convert fails at the target-projection
step with the conversionTarget error carrying the family base unit and the
target token, a constructor distinct from the unknownUnit failure. -/
theorem convert_target_error (v : Value) (t : String) (f : Family)
    (hfam : FAMILIES.find? (fun g => g.can_convert v.unit) = some f)
    (hdu : f.find_unit t = none) :
    ∃ bq, convert v t = .err (.conversionTarget bq f.base_unit t) := by
  obtain ⟨su, hsu⟩ : ∃ su, f.find_unit v.unit = some su := by
    have hc := (find?_families hfam).2
    unfold Family.can_convert at hc
    exact Option.isSome_iff_exists.mp hc
  have hne : v.unit ≠ t := by
    intro he
    rw [he, hdu] at hsu
    cases hsu
  by_cases hb : v.unit = f.base_unit
  · refine ⟨v.quantity, ?_⟩
    have hfc : f.convert v t = .error (.conversionTarget v.quantity f.base_unit t) := by
      unfold Family.convert
      rw [if_neg hne]
      have hnb : ¬v.unit ≠ f.base_unit := by simp [hb]
      rw [if_neg hnb]
      show f.to_dest_unit v.quantity t = _
      unfold Family.to_dest_unit
      rw [hdu]
    rw [convert_unfold hfam, hfc]
  · refine ⟨(v.quantity + su.difference) * su.ratio, ?_⟩
    have hfc : f.convert v t
        = .error (.conversionTarget ((v.quantity + su.difference) * su.ratio) f.base_unit t) := by
      unfold Family.convert
      rw [if_neg hne, if_pos hb]
      unfold Family.to_base_unit
      rw [hsu]
      show f.to_dest_unit ((v.quantity + su.difference) * su.ratio) t = _
      unfold Family.to_dest_unit
      rw [hdu]
    rw [convert_unfold hfam, hfc]

theorem convert_target_error_witness :
    temperature.family.find_unit "m" = none ∧
    ∃ bq, convert ⟨100, "c"⟩ "m"
      = .err (.conversionTarget bq temperature.family.base_unit "m") :=
  ⟨rfl, convert_target_error ⟨100, "c"⟩ "m" temperature.family rfl rfl⟩

/-- C3: for every built-in unit (identified by its symbol, paired with the
base-unit token of its family), converting any quantity from the unit to
the base unit and back reproduces the original quantity within 0.001
absolute tolerance (exactly, in the rational model, because the two steps
are algebraic inverses). -/
theorem round_trip (q : ℚ) (pr : String × String) (h : pr ∈ builtinPairs) :
    ∃ q', roundTripQ pr.1 pr.2 q = some q' ∧ |q' - q| ≤ 1 / 1000 := by
  have h2 : pr ∈ ([("m", "M"), ("cm", "M"), ("mm", "M"), ("km", "M"), ("ft", "M"),
      ("in", "M"), ("yd", "M"), ("mi", "M"), ("nmi", "M"),
      ("k", "K"), ("c", "K"), ("f", "K"), ("r", "K")] : List (String × String)) := h
  fin_cases h2 <;> exact ⟨_, rfl, tol_of_eq (by simp only [Unit.new]; ring)⟩

theorem round_trip_witness :
    (("f", "K") ∈ builtinPairs) ∧
    ∃ q', roundTripQ "f" "K" 100 = some q' ∧ |q' - 100| ≤ 1 / 1000 :=
  ⟨by decide, round_trip 100 ("f", "K") (by decide)⟩

end Convr

namespace Convr

/-- C9: display renders the quantity with exactly two digits after the
decimal point, immediately followed by the unit token as stored; in
particular 212.0 with unit f renders as 212.00f and -12.3 with unit km as
-12.30km. -/
theorem display_two_decimals :
    (∀ v : Value, ∃ pre a b,
        Value.display v = pre ++ String.mk ['.', a, b] ++ v.unit ∧
        a.isDigit ∧ b.isDigit) ∧
    Value.display ⟨212, "f"⟩ = "212.00f" ∧
    Value.display ⟨-12.3, "km"⟩ = "-12.30km" := by
  refine ⟨fun v => ⟨_, _, _, rfl, ?_, ?_⟩, ?_, ?_⟩
  · exact digitChar_isDigit (Nat.mod_lt _ (by norm_num))
  · exact digitChar_isDigit (Nat.mod_lt _ (by norm_num))
  · with_unfolding_all rfl
  · with_unfolding_all rfl

end Convr

namespace Convr

/-! Model of the value parser (impl str::FromStr for Value, prelude.rs).
The source compiles the pattern \s*(-?\d+\.?\d*)\s*([^s]+)\s*$ anchored at
both ends with the regex crate, whose default mode is Unicode-aware:
\s is the White_Space property and \d is the set of decimal digits
(general category Nd), while [^s] is every character other than the
letter s.  The model enumerates, for each quantifier, its candidate
consumptions in the backtracking preference order (greedy: longest first)
and takes the first overall success, which is the leftmost-first match the
engine reports. -/

/-- Unicode White_Space, the class matched by \s. -/
def isWs (c : Char) : Bool :=
  let n := c.toNat
  (0x9 ≤ n && n ≤ 0xD) || n == 0x20 || n == 0x85 || n == 0xA0 || n == 0x1680 ||
    (0x2000 ≤ n && n ≤ 0x200A) || n == 0x2028 || n == 0x2029 || n == 0x202F ||
    n == 0x205F || n == 0x3000

/-- Unicode decimal digits (general category Nd, Unicode 14.0), the class
matched by \d.  The first range is the ASCII digits. -/
def isNd (c : Char) : Bool :=
  let n := c.toNat
  (0x30 ≤ n && n ≤ 0x39) || (0x660 ≤ n && n ≤ 0x669) ||
    (0x6F0 ≤ n && n ≤ 0x6F9) || (0x7C0 ≤ n && n ≤ 0x7C9) ||
    (0x966 ≤ n && n ≤ 0x96F) || (0x9E6 ≤ n && n ≤ 0x9EF) ||
    (0xA66 ≤ n && n ≤ 0xA6F) || (0xAE6 ≤ n && n ≤ 0xAEF) ||
    (0xB66 ≤ n && n ≤ 0xB6F) || (0xBE6 ≤ n && n ≤ 0xBEF) ||
    (0xC66 ≤ n && n ≤ 0xC6F) || (0xCE6 ≤ n && n ≤ 0xCEF) ||
    (0xD66 ≤ n && n ≤ 0xD6F) || (0xDE6 ≤ n && n ≤ 0xDEF) ||
    (0xE50 ≤ n && n ≤ 0xE59) || (0xED0 ≤ n && n ≤ 0xED9) ||
    (0xF20 ≤ n && n ≤ 0xF29) || (0x1040 ≤ n && n ≤ 0x1049) ||
    (0x1090 ≤ n && n ≤ 0x1099) || (0x17E0 ≤ n && n ≤ 0x17E9) ||
    (0x1810 ≤ n && n ≤ 0x1819) || (0x1946 ≤ n && n ≤ 0x194F) ||
    (0x19D0 ≤ n && n ≤ 0x19D9) || (0x1A80 ≤ n && n ≤ 0x1A89) ||
    (0x1A90 ≤ n && n ≤ 0x1A99) || (0x1B50 ≤ n && n ≤ 0x1B59) ||
    (0x1BB0 ≤ n && n ≤ 0x1BB9) || (0x1C40 ≤ n && n ≤ 0x1C49) ||
    (0x1C50 ≤ n && n ≤ 0x1C59) || (0xA620 ≤ n && n ≤ 0xA629) ||
    (0xA8D0 ≤ n && n ≤ 0xA8D9) || (0xA900 ≤ n && n ≤ 0xA909) ||
    (0xA9D0 ≤ n && n ≤ 0xA9D9) || (0xA9F0 ≤ n && n ≤ 0xA9F9) ||
    (0xAA50 ≤ n && n ≤ 0xAA59) || (0xABF0 ≤ n && n ≤ 0xABF9) ||
    (0xFF10 ≤ n && n ≤ 0xFF19) || (0x104A0 ≤ n && n ≤ 0x104A9) ||
    (0x10D30 ≤ n && n ≤ 0x10D39) || (0x11066 ≤ n && n ≤ 0x1106F) ||
    (0x110F0 ≤ n && n ≤ 0x110F9) || (0x11136 ≤ n && n ≤ 0x1113F) ||
    (0x111D0 ≤ n && n ≤ 0x111D9) || (0x112F0 ≤ n && n ≤ 0x112F9) ||
    (0x11450 ≤ n && n ≤ 0x11459) || (0x114D0 ≤ n && n ≤ 0x114D9) ||
    (0x11650 ≤ n && n ≤ 0x11659) || (0x116C0 ≤ n && n ≤ 0x116C9) ||
    (0x11730 ≤ n && n ≤ 0x11739) || (0x118E0 ≤ n && n ≤ 0x118E9) ||
    (0x11950 ≤ n && n ≤ 0x11959) || (0x11C50 ≤ n && n ≤ 0x11C59) ||
    (0x11D50 ≤ n && n ≤ 0x11D59) || (0x11DA0 ≤ n && n ≤ 0x11DA9) ||
    (0x16A60 ≤ n && n ≤ 0x16A69) || (0x16AC0 ≤ n && n ≤ 0x16AC9) ||
    (0x16B50 ≤ n && n ≤ 0x16B59) || (0x1D7CE ≤ n && n ≤ 0x1D7FF) ||
    (0x1E140 ≤ n && n ≤ 0x1E149) || (0x1E2F0 ≤ n && n ≤ 0x1E2F9) ||
    (0x1E950 ≤ n && n ≤ 0x1E959) || (0x1FBF0 ≤ n && n ≤ 0x1FBF9)

/-- Candidate (consumed, rest) splits of a greedy star over a character
class, most-consumed first: the backtracking preference order. -/
def starSplits (p : Char → Bool) : List Char → List (List Char × List Char)
  | [] => [([], [])]
  | c :: cs =>
    if p c then ((starSplits p cs).map fun pr => (c :: pr.1, pr.2)) ++ [([], c :: cs)]
    else [([], c :: cs)]

/-- Candidate splits of a greedy plus over a character class. -/
def plusSplits (p : Char → Bool) : List Char → List (List Char × List Char)
  | [] => []
  | c :: cs => if p c then (starSplits p cs).map fun pr => (c :: pr.1, pr.2) else []

/-- Candidate splits of a greedy optional single character. -/
def optSplits (p : Char → Bool) (s : List Char) : List (List Char × List Char) :=
  match s with
  | [] => [([], [])]
  | c :: cs => if p c then [([c], cs), ([], c :: cs)] else [([], c :: cs)]

/-- Leftmost-first match of the anchored pattern against the whole string:
nested candidate enumeration, outer quantifiers varying slowest, yields the
first overall success in backtracking preference order, i.e. the match the
regex engine reports.  Returns (capture 1, capture 2). -/
def regexCaptures (s : List Char) : Option (List Char × List Char) :=
  (starSplits isWs s).findSome? fun p0 =>
    (optSplits (· == '-') p0.2).findSome? fun pm =>
      (plusSplits isNd pm.2).findSome? fun pd1 =>
        (optSplits (· == '.') pd1.2).findSome? fun pdot =>
          (starSplits isNd pdot.2).findSome? fun pd2 =>
            (starSplits isWs pd2.2).findSome? fun p2 =>
              (plusSplits (· != 's') p2.2).findSome? fun p3 =>
                if p3.2.all isWs then
                  some (pm.1 ++ pd1.1 ++ pdot.1 ++ pd2.1, p3.1)
                else none

/-- ASCII decimal digit, the only digits f64::from_str accepts. -/
def isAsciiDigit (c : Char) : Bool :=
  0x30 ≤ c.toNat && c.toNat ≤ 0x39

/-- Numeric value of a list of ASCII digits. -/
def digitsVal (ds : List Char) : ℕ :=
  ds.foldl (fun a c => a * 10 + (c.toNat - 48)) 0

/-- The error type of the parser (struct ParseValueError, prelude.rs); the
description propagates the float-parse message when one occurred. -/
structure ParseValueError where
  description : String
deriving DecidableEq, Repr

/-- Model of f64::from_str on the shapes a capture of -?\d+\.?\d* can
take: an optional sign, then ASCII digits with at most one decimal point
and at least one digit overall.  Exponent, infinity and NaN spellings
cannot occur in such a capture, so omitting them loses nothing on the
inputs this development feeds the function.  Non-ASCII digits are
rejected, exactly as by the source. -/
def parseF64 (cs : List Char) : Option ℚ :=
  let signRest : ℚ × List Char :=
    match cs with
    | [] => (1, [])
    | c :: r => if c = '-' then (-1, r) else if c = '+' then (1, r) else (1, c :: r)
  let ip := signRest.2.takeWhile isAsciiDigit
  let r1 := signRest.2.dropWhile isAsciiDigit
  match r1 with
  | [] => if ip.isEmpty then none else some (signRest.1 * (digitsVal ip : ℚ))
  | '.' :: r2 =>
    let fp := r2.takeWhile isAsciiDigit
    let r3 := r2.dropWhile isAsciiDigit
    if r3.isEmpty && !(ip.isEmpty && fp.isEmpty) then
      some (signRest.1 * ((digitsVal ip : ℚ) + (digitsVal fp : ℚ) / 10 ^ fp.length))
    else none
  | _ => none

/-- str::FromStr for Value (prelude.rs): run the regex on the whole input;
on a match, parse capture 1 as f64 (propagating its error message) and
store the lower-cased capture 2 as the unit; with no match, report the
generic invalid-value error. -/
def from_str (s : String) : Except ParseValueError Value :=
  match regexCaptures s.data with
  | some caps =>
    match parseF64 caps.1 with
    | some q => .ok ⟨q, to_lowercase ⟨caps.2⟩⟩
    | none =>
      .error ⟨if caps.1.isEmpty then "cannot parse float from empty string"
              else "invalid float literal"⟩
  | none => .error ⟨"invalid value"⟩

/-- Membership in the language of the capture-1 subexpression -?\d+\.?\d*. -/
def numShape (n : List Char) : Prop :=
  ∃ sg d1 dt d2, n = sg ++ d1 ++ dt ++ d2 ∧ (sg = [] ∨ sg = ['-']) ∧
    d1 ≠ [] ∧ d1.all isNd ∧ (dt = [] ∨ dt = ['.']) ∧ d2.all isNd

/-- Whole-string membership in the language of the anchored pattern
\s*(-?\d+\.?\d*)\s*([^s]+)\s*$.  Since every whitespace character lies in
the class [^s], the middle and trailing \s* absorb into [^s]+, so the
language is: optional whitespace, then a numeric literal, then a nonempty
remainder free of the letter s. -/
def matchesGrammar (s : String) : Prop :=
  ∃ w n r, s.data = w ++ n ++ r ∧ w.all isWs ∧ numShape n ∧
    r ≠ [] ∧ r.all (· != 's')

end Convr

namespace Convr

/-! Soundness and completeness of the candidate enumerations. -/

lemma starSplits_sound {p : Char → Bool} :
    ∀ {s a b : List Char}, (a, b) ∈ starSplits p s → s = a ++ b ∧ a.all p := by
  intro s
  induction s with
  | nil =>
    intro a b h
    simp only [starSplits, List.mem_singleton, Prod.mk.injEq] at h
    simp [h.1, h.2]
  | cons c cs ih =>
    intro a b h
    simp only [starSplits] at h
    by_cases hc : p c
    · rw [if_pos hc] at h
      rcases List.mem_append.mp h with h1 | h1
      · rcases List.mem_map.mp h1 with ⟨pr, hpr, heq⟩
        obtain ⟨h2, h3⟩ := ih hpr
        cases heq
        simp [h2, h3, hc]
      · simp only [List.mem_singleton, Prod.mk.injEq] at h1
        simp [h1.1, h1.2]
    · rw [if_neg hc] at h
      simp only [List.mem_singleton, Prod.mk.injEq] at h
      simp [h.1, h.2]

lemma starSplits_nil_mem (p : Char → Bool) (s : List Char) :
    ([], s) ∈ starSplits p s := by
  cases s with
  | nil => simp [starSplits]
  | cons c cs =>
    simp only [starSplits]
    by_cases hc : p c
    · rw [if_pos hc]
      exact List.mem_append_right _ (List.mem_singleton.mpr rfl)
    · rw [if_neg hc]
      exact List.mem_singleton.mpr rfl

lemma starSplits_complete {p : Char → Bool} :
    ∀ {a : List Char} (b : List Char), a.all p → (a, b) ∈ starSplits p (a ++ b) := by
  intro a
  induction a with
  | nil => exact fun b _ => starSplits_nil_mem p b
  | cons c a' ih =>
    intro b hall
    simp only [List.all_cons, Bool.and_eq_true] at hall
    simp only [List.cons_append, starSplits, if_pos hall.1]
    exact List.mem_append_left _ (List.mem_map.mpr ⟨(a', b), ih b hall.2, rfl⟩)

lemma plusSplits_sound {p : Char → Bool} {s a b : List Char}
    (h : (a, b) ∈ plusSplits p s) : s = a ++ b ∧ a.all p ∧ a ≠ [] := by
  cases s with
  | nil => simp [plusSplits] at h
  | cons c cs =>
    simp only [plusSplits] at h
    by_cases hc : p c
    · rw [if_pos hc] at h
      rcases List.mem_map.mp h with ⟨pr, hpr, heq⟩
      obtain ⟨h2, h3⟩ := starSplits_sound hpr
      cases heq
      simp [h2, h3, hc]
    · rw [if_neg hc] at h
      simp at h

lemma plusSplits_complete {p : Char → Bool} {a : List Char} (b : List Char)
    (hne : a ≠ []) (hall : a.all p) : (a, b) ∈ plusSplits p (a ++ b) := by
  cases a with
  | nil => exact absurd rfl hne
  | cons c a' =>
    simp only [List.all_cons, Bool.and_eq_true] at hall
    simp only [List.cons_append, plusSplits, if_pos hall.1]
    exact List.mem_map.mpr ⟨(a', b), starSplits_complete b hall.2, rfl⟩

lemma optSplits_sound {p : Char → Bool} {s a b : List Char}
    (h : (a, b) ∈ optSplits p s) :
    s = a ++ b ∧ (a = [] ∨ ∃ c, a = [c] ∧ p c) := by
  cases s with
  | nil =>
    simp only [optSplits, List.mem_singleton, Prod.mk.injEq] at h
    simp [h.1, h.2]
  | cons c cs =>
    simp only [optSplits] at h
    by_cases hc : p c
    · rw [if_pos hc] at h
      rcases List.mem_cons.mp h with h1 | h1
      · cases h1
        exact ⟨rfl, Or.inr ⟨c, rfl, hc⟩⟩
      · simp only [List.mem_singleton, Prod.mk.injEq] at h1
        exact ⟨by simp [h1.1, h1.2], Or.inl h1.1⟩
    · rw [if_neg hc] at h
      simp only [List.mem_singleton, Prod.mk.injEq] at h
      exact ⟨by simp [h.1, h.2], Or.inl h.1⟩

lemma optSplits_complete {p : Char → Bool} {a : List Char} (b : List Char)
    (ha : a = [] ∨ ∃ c, a = [c] ∧ p c) : (a, b) ∈ optSplits p (a ++ b) := by
  rcases ha with rfl | ⟨c, rfl, hc⟩
  · rw [List.nil_append]
    cases b with
    | nil => simp [optSplits]
    | cons c cs =>
      simp only [optSplits]
      by_cases hc : p c
      · rw [if_pos hc]
        exact List.mem_cons.mpr (Or.inr (List.mem_singleton.mpr rfl))
      · rw [if_neg hc]
        exact List.mem_singleton.mpr rfl
  · simp only [List.cons_append, List.nil_append, optSplits, if_pos hc]
    exact List.mem_cons_self _ _

lemma findSome?_isSome_of_mem {α β : Type} {f : α → Option β} {l : List α} {x : α}
    (hx : x ∈ l) (hf : (f x).isSome) : (l.findSome? f).isSome := by
  induction l with
  | nil => cases hx
  | cons a l ih =>
    rw [List.findSome?_cons]
    cases hfa : f a with
    | some b => simp
    | none =>
      rcases List.mem_cons.mp hx with rfl | hx'
      · rw [hfa] at hf
        cases hf
      · exact ih hx'

end Convr

namespace Convr

lemma ws_not_s {c : Char} (h : isWs c) : c != 's' := by
  by_contra hb
  have hc : c = 's' := by simpa using hb
  subst hc
  exact absurd h (by decide)

lemma all_ws_not_s {l : List Char} (h : l.all isWs) : l.all (· != 's') := by
  rw [List.all_eq_true] at h ⊢
  exact fun c hc => ws_not_s (h c hc)

lemma starSplits_full {p : Char → Bool} :
    ∀ {s : List Char}, s.all p → ∃ l', starSplits p s = (s, []) :: l' := by
  intro s
  induction s with
  | nil => exact fun _ => ⟨[], rfl⟩
  | cons c cs ih =>
    intro h
    simp only [List.all_cons, Bool.and_eq_true] at h
    obtain ⟨l', hl⟩ := ih h.2
    exact ⟨l'.map (fun pr => (c :: pr.1, pr.2)) ++ [([], c :: cs)],
      by simp only [starSplits, if_pos h.1, hl, List.map_cons, List.cons_append]⟩

lemma plusSplits_full {p : Char → Bool} {c : Char} {cs : List Char}
    (hall : (c :: cs).all p) : ∃ l', plusSplits p (c :: cs) = (c :: cs, []) :: l' := by
  simp only [List.all_cons, Bool.and_eq_true] at hall
  obtain ⟨l', hl⟩ := starSplits_full hall.2
  exact ⟨l'.map (fun pr => (c :: pr.1, pr.2)),
    by simp only [plusSplits, if_pos hall.1, hl, List.map_cons]⟩

lemma lastLevel {s3 g : List Char} {y : List Char × List Char}
    (h : ((plusSplits (· != 's') s3).findSome? fun p3 =>
        if p3.2.all isWs then some (g, p3.1) else none) = some y) :
    y = (g, s3) ∧ s3 ≠ [] ∧ s3.all (· != 's') := by
  obtain ⟨⟨a, b⟩, hmem, hfb⟩ := List.exists_of_findSome?_eq_some h
  obtain ⟨hsound, hall, hane⟩ := plusSplits_sound hmem
  by_cases hbw : b.all isWs
  · have hs3all : s3.all (· != 's') := by
      rw [hsound, List.all_append, Bool.and_eq_true]
      exact ⟨hall, all_ws_not_s hbw⟩
    have hs3ne : s3 ≠ [] := by
      rw [hsound]
      intro habs
      exact hane (List.append_eq_nil.mp habs).1
    refine ⟨?_, hs3ne, hs3all⟩
    cases hs3 : s3 with
    | nil => exact absurd hs3 hs3ne
    | cons c cs =>
      obtain ⟨l', hpl⟩ := plusSplits_full (hs3 ▸ hs3all)
      rw [hs3, hpl, List.findSome?_cons] at h
      have h2 : some (g, c :: cs) = some y := h
      injection h2 with h3
      exact h3.symm
  · rw [if_neg hbw] at hfb
    cases hfb

end Convr

namespace Convr

lemma captures_sound {s g1 g2 : List Char}
    (h : regexCaptures s = some (g1, g2)) :
    ∃ w mid, s = w ++ g1 ++ mid ++ g2 ∧ w.all isWs ∧ numShape g1 ∧
      mid.all isWs ∧ g2 ≠ [] ∧ g2.all (· != 's') := by
  unfold regexCaptures at h
  obtain ⟨p0, hp0, h⟩ := List.exists_of_findSome?_eq_some h
  obtain ⟨pm, hpm, h⟩ := List.exists_of_findSome?_eq_some h
  obtain ⟨pd1, hpd1, h⟩ := List.exists_of_findSome?_eq_some h
  obtain ⟨pdot, hpdot, h⟩ := List.exists_of_findSome?_eq_some h
  obtain ⟨pd2, hpd2, h⟩ := List.exists_of_findSome?_eq_some h
  obtain ⟨p2, hp2, h⟩ := List.exists_of_findSome?_eq_some h
  obtain ⟨hy, hune, huall⟩ := lastLevel h
  obtain ⟨he0, hw0⟩ := starSplits_sound hp0
  obtain ⟨hem, hsgm⟩ := optSplits_sound hpm
  obtain ⟨hed1, hd1all, hd1ne⟩ := plusSplits_sound hpd1
  obtain ⟨hedot, hdotm⟩ := optSplits_sound hpdot
  obtain ⟨hed2, hd2all⟩ := starSplits_sound hpd2
  obtain ⟨he2, hmid⟩ := starSplits_sound hp2
  have hg1 : g1 = pm.1 ++ pd1.1 ++ pdot.1 ++ pd2.1 := (Prod.mk.injEq _ _ _ _ ▸ hy).1
  have hg2 : g2 = p2.2 := (Prod.mk.injEq _ _ _ _ ▸ hy).2
  refine ⟨p0.1, p2.1, ?_, hw0, ?_, hmid, hg2 ▸ hune, hg2 ▸ huall⟩
  · rw [he0, hem, hed1, hedot, hed2, he2, hg1, hg2]
    simp [List.append_assoc]
  · refine ⟨pm.1, pd1.1, pdot.1, pd2.1, hg1, ?_, hd1ne, hd1all, ?_, hd2all⟩
    · rcases hsgm with h1 | ⟨c, hc, hceq⟩
      · exact Or.inl h1
      · exact Or.inr (by rw [hc, eq_of_beq hceq])
    · rcases hdotm with h1 | ⟨c, hc, hceq⟩
      · exact Or.inl h1
      · exact Or.inr (by rw [hc, eq_of_beq hceq])

end Convr

namespace Convr

lemma captures_complete {s w n r : List Char} (hs : s = w ++ n ++ r)
    (hw : w.all isWs) (hn : numShape n) (hr : r ≠ []) (hrs : r.all (· != 's')) :
    (regexCaptures s).isSome := by
  obtain ⟨sg, d1, dt, d2, hneq, hsg, hd1ne, hd1, hdt, hd2⟩ := hn
  subst hneq
  subst hs
  unfold regexCaptures
  have hsg' : sg = [] ∨ ∃ c, sg = [c] ∧ (c == '-') = true := by
    rcases hsg with h1 | h1
    · exact Or.inl h1
    · exact Or.inr ⟨'-', h1, rfl⟩
  have hdt' : dt = [] ∨ ∃ c, dt = [c] ∧ (c == '.') = true := by
    rcases hdt with h1 | h1
    · exact Or.inl h1
    · exact Or.inr ⟨'.', h1, rfl⟩
  have m0 : (w, sg ++ (d1 ++ (dt ++ (d2 ++ r))))
      ∈ starSplits isWs (w ++ (sg ++ d1 ++ dt ++ d2) ++ r) := by
    have := starSplits_complete (p := isWs) (sg ++ (d1 ++ (dt ++ (d2 ++ r)))) hw
    simpa [List.append_assoc] using this
  refine findSome?_isSome_of_mem m0 ?_
  have m1 : (sg, d1 ++ (dt ++ (d2 ++ r)))
      ∈ optSplits (· == '-') (sg ++ (d1 ++ (dt ++ (d2 ++ r)))) :=
    optSplits_complete _ hsg'
  refine findSome?_isSome_of_mem m1 ?_
  have m2 : (d1, dt ++ (d2 ++ r)) ∈ plusSplits isNd (d1 ++ (dt ++ (d2 ++ r))) :=
    plusSplits_complete _ hd1ne hd1
  refine findSome?_isSome_of_mem m2 ?_
  have m3 : (dt, d2 ++ r) ∈ optSplits (· == '.') (dt ++ (d2 ++ r)) :=
    optSplits_complete _ hdt'
  refine findSome?_isSome_of_mem m3 ?_
  have m4 : (d2, r) ∈ starSplits isNd (d2 ++ r) := starSplits_complete r hd2
  refine findSome?_isSome_of_mem m4 ?_
  have m5 : (([] : List Char), r) ∈ starSplits isWs r := starSplits_nil_mem _ _
  refine findSome?_isSome_of_mem m5 ?_
  have m6 : (r, ([] : List Char)) ∈ plusSplits (· != 's') r := by
    have := plusSplits_complete (p := (· != 's')) [] hr hrs
    simpa using this
  refine findSome?_isSome_of_mem m6 ?_
  simp

end Convr

namespace Convr

lemma nd_ascii_digit {c : Char} (h1 : isNd c) (h2 : c.toNat < 128) : isAsciiDigit c := by
  simp only [isNd, Bool.or_eq_true, Bool.and_eq_true, decide_eq_true_eq] at h1
  simp only [isAsciiDigit, Bool.and_eq_true, decide_eq_true_eq]
  omega

lemma takeWhile_all_eq {p : Char → Bool} :
    ∀ {l : List Char}, l.all p → l.takeWhile p = l ∧ l.dropWhile p = [] := by
  intro l
  induction l with
  | nil => exact fun _ => ⟨rfl, rfl⟩
  | cons c cs ih =>
    intro h
    simp only [List.all_cons, Bool.and_eq_true] at h
    simp [List.takeWhile_cons, List.dropWhile_cons, h.1, ih h.2]

lemma takeWhile_append_all {p : Char → Bool} :
    ∀ {l1 : List Char} (l2 : List Char), l1.all p →
      (l1 ++ l2).takeWhile p = l1 ++ l2.takeWhile p ∧
      (l1 ++ l2).dropWhile p = l2.dropWhile p := by
  intro l1
  induction l1 with
  | nil => exact fun l2 _ => ⟨rfl, rfl⟩
  | cons c cs ih =>
    intro l2 h
    simp only [List.all_cons, Bool.and_eq_true] at h
    simp [List.takeWhile_cons, List.dropWhile_cons, h.1, ih l2 h.2]

lemma ascii_digit_head {c : Char} (hc : isAsciiDigit c) : c ≠ '-' ∧ c ≠ '+' := by
  simp only [isAsciiDigit, Bool.and_eq_true, decide_eq_true_eq] at hc
  constructor <;> intro h <;> subst h <;> simp at hc

lemma parseF64_isSome_of_ascii {n : List Char} (hn : numShape n)
    (ha : ∀ c ∈ n, c.toNat < 128) : (parseF64 n).isSome := by
  obtain ⟨sg, d1, dt, d2, hneq, hsg, hd1ne, hd1, hdt, hd2⟩ := hn
  subst hneq
  have hd1' : d1.all isAsciiDigit := by
    rw [List.all_eq_true] at hd1 ⊢
    intro c hcd
    exact nd_ascii_digit (hd1 c hcd) (ha c (by simp [List.mem_append, hcd]))
  have hd2' : d2.all isAsciiDigit := by
    rw [List.all_eq_true] at hd2 ⊢
    intro c hcd
    exact nd_ascii_digit (hd2 c hcd) (ha c (by simp [List.mem_append, hcd]))
  clear ha hd1 hd2
  obtain ⟨c, d1', rfl⟩ : ∃ c d1', d1 = c :: d1' := by
    cases d1 with
    | nil => exact absurd rfl hd1ne
    | cons c cs => exact ⟨c, cs, rfl⟩
  simp only [List.all_cons, Bool.and_eq_true] at hd1'
  obtain ⟨hch, hd1t⟩ := hd1'
  obtain ⟨hcm, hcp⟩ := ascii_digit_head hch
  have hdot : isAsciiDigit '.' = false := rfl
  rcases hsg with rfl | rfl <;> rcases hdt with rfl | rfl
  · have e1 : (([] : List Char) ++ (c :: d1') ++ [] ++ d2) = c :: (d1' ++ d2) := by simp
    have hall : (c :: (d1' ++ d2)).all isAsciiDigit := by
      simp [List.all_cons, List.all_append, hch, hd1t, hd2']
    obtain ⟨ht, hd⟩ := takeWhile_all_eq hall
    rw [e1]
    unfold parseF64
    simp [if_neg hcm, if_neg hcp, ht, hd]
  · have e1 : (([] : List Char) ++ (c :: d1') ++ ['.'] ++ d2) = c :: (d1' ++ '.' :: d2) := by
      simp
    have hcd1 : (c :: d1').all isAsciiDigit := by simp [List.all_cons, hch, hd1t]
    have htdot : ('.' :: d2).takeWhile isAsciiDigit = [] := by
      simp [List.takeWhile_cons, hdot]
    have hddot : ('.' :: d2).dropWhile isAsciiDigit = '.' :: d2 := by
      simp [List.dropWhile_cons, hdot]
    obtain ⟨ht, hd⟩ := takeWhile_append_all ('.' :: d2) hcd1
    rw [htdot] at ht
    rw [hddot] at hd
    simp only [List.cons_append, List.append_nil] at ht hd
    obtain ⟨ht2, hd2d⟩ := takeWhile_all_eq hd2'
    rw [e1]
    unfold parseF64
    simp [if_neg hcm, if_neg hcp, ht, hd, ht2, hd2d, hch, hd2']
  · have e1 : ((['-'] : List Char) ++ (c :: d1') ++ [] ++ d2) = '-' :: (c :: (d1' ++ d2)) := by
      simp
    have hall : (c :: (d1' ++ d2)).all isAsciiDigit := by
      simp [List.all_cons, List.all_append, hch, hd1t, hd2']
    obtain ⟨ht, hd⟩ := takeWhile_all_eq hall
    rw [e1]
    unfold parseF64
    simp [if_neg hcm, if_neg hcp, ht, hd]
  · have e1 : ((['-'] : List Char) ++ (c :: d1') ++ ['.'] ++ d2)
        = '-' :: (c :: (d1' ++ '.' :: d2)) := by simp
    have hcd1 : (c :: d1').all isAsciiDigit := by simp [List.all_cons, hch, hd1t]
    have htdot : ('.' :: d2).takeWhile isAsciiDigit = [] := by
      simp [List.takeWhile_cons, hdot]
    have hddot : ('.' :: d2).dropWhile isAsciiDigit = '.' :: d2 := by
      simp [List.dropWhile_cons, hdot]
    obtain ⟨ht, hd⟩ := takeWhile_append_all ('.' :: d2) hcd1
    rw [htdot] at ht
    rw [hddot] at hd
    simp only [List.cons_append, List.append_nil] at ht hd
    obtain ⟨ht2, hd2d⟩ := takeWhile_all_eq hd2'
    rw [e1]
    unfold parseF64
    simp [if_neg hcm, if_neg hcp, ht, hd, ht2, hd2d, hch, hd2']

end Convr

namespace Convr

lemma from_str_invalid {s : String} (hc : regexCaptures s.data = none) :
    from_str s = .error ⟨"invalid value"⟩ := by
  unfold from_str
  rw [hc]

lemma from_str_some {s : String} {g1 g2 : List Char}
    (hc : regexCaptures s.data = some (g1, g2)) :
    from_str s = match parseF64 g1 with
      | some q => .ok ⟨q, to_lowercase ⟨g2⟩⟩
      | none => .error ⟨if g1.isEmpty then "cannot parse float from empty string"
                        else "invalid float literal"⟩ := by
  unfold from_str
  rw [hc]

lemma captures_grammar {s : String} {g1 g2 : List Char}
    (hc : regexCaptures s.data = some (g1, g2)) : matchesGrammar s := by
  obtain ⟨w, mid, hdec, hw, hn, hmid, hne, hall⟩ := captures_sound hc
  refine ⟨w, g1, mid ++ g2, by simpa [List.append_assoc] using hdec, hw, hn, ?_, ?_⟩
  · intro habs
    exact hne (List.append_eq_nil.mp habs).2
  · rw [List.all_append, Bool.and_eq_true]
    exact ⟨all_ws_not_s hmid, hall⟩

lemma numShape_ne_nil {n : List Char} (hn : numShape n) : n ≠ [] := by
  obtain ⟨sg, d1, dt, d2, hneq, _, hd1ne, _, _, _⟩ := hn
  subst hneq
  intro habs
  rcases List.append_eq_nil.mp habs with ⟨h1, _⟩
  rcases List.append_eq_nil.mp h1 with ⟨h2, _⟩
  exact hd1ne (List.append_eq_nil.mp h2).2

lemma from_str_ok_sound {s : String} {v : Value} (h : from_str s = .ok v) :
    ∃ w n mid u, s.data = w ++ n ++ mid ++ u ∧ w.all isWs ∧ numShape n ∧
      mid.all isWs ∧ u ≠ [] ∧ u.all (· != 's') ∧
      parseF64 n = some v.quantity ∧ v.unit = to_lowercase ⟨u⟩ := by
  cases hc : regexCaptures s.data with
  | none => rw [from_str_invalid hc] at h; cases h
  | some caps =>
    obtain ⟨g1, g2⟩ := caps
    rw [from_str_some hc] at h
    cases hp : parseF64 g1 with
    | none => rw [hp] at h; cases h
    | some q =>
      rw [hp] at h
      injection h with h2
      subst h2
      obtain ⟨w, mid, hdec, hw, hn, hmid, hne, hall⟩ := captures_sound hc
      exact ⟨w, g1, mid, g2, hdec, hw, hn, hmid, hne, hall, hp, rfl⟩

end Convr

namespace Convr

lemma matchesGrammar_expanded (s : String) :
    matchesGrammar s ↔ ∃ w n m u t, s.data = w ++ n ++ m ++ u ++ t ∧ w.all isWs ∧
      numShape n ∧ m.all isWs ∧ u ≠ [] ∧ u.all (· != 's') ∧ t.all isWs := by
  constructor
  · rintro ⟨w, n, r, hs, hw, hn, hr, hrs⟩
    exact ⟨w, n, [], r, [], by simpa using hs, hw, hn, by simp, hr, hrs, by simp⟩
  · rintro ⟨w, n, m, u, t, hs, hw, hn, hm, hu, hus, ht⟩
    refine ⟨w, n, m ++ (u ++ t), by simpa [List.append_assoc] using hs, hw, hn, ?_, ?_⟩
    · intro habs
      exact hu (List.append_eq_nil.mp (List.append_eq_nil.mp habs).2).1
    · simp only [List.all_append, Bool.and_eq_true]
      exact ⟨all_ws_not_s hm, hus, all_ws_not_s ht⟩

/-- C5 (amended): the parser succeeds exactly on inputs that match the
anchored grammar AND whose captured numeric portion is a valid float
literal; with no regex match the failure is the generic invalid-value
error, and on a grammar match the only other outcome is the propagated
float-parse failure (reachable via non-ASCII digits). -/
theorem parse_ok_iff_grammar (s : String) :
    (¬ matchesGrammar s → from_str s = .error ⟨"invalid value"⟩) ∧
    (matchesGrammar s → (∃ v, from_str s = .ok v) ∨
        from_str s = .error ⟨"invalid float literal"⟩) ∧
    ((∃ v, from_str s = .ok v) → matchesGrammar s) := by
  refine ⟨?_, ?_, ?_⟩
  · intro hnm
    cases hc : regexCaptures s.data with
    | none => exact from_str_invalid hc
    | some caps =>
      obtain ⟨g1, g2⟩ := caps
      exact absurd (captures_grammar hc) hnm
  · intro hm
    obtain ⟨w, n, r, hdec, hw, hn, hr, hrs⟩ := hm
    obtain ⟨⟨g1, g2⟩, hc⟩ :=
      Option.isSome_iff_exists.mp (captures_complete hdec hw hn hr hrs)
    obtain ⟨w', mid', hdec', hw', hn', hmid', hne', hall'⟩ := captures_sound hc
    have hg1 : g1.isEmpty = false := by
      cases hg : g1 with
      | nil => exact absurd hg (numShape_ne_nil hn')
      | cons a l => rfl
    rw [from_str_some hc]
    cases hp : parseF64 g1 with
    | some q => exact Or.inl ⟨_, rfl⟩
    | none =>
      right
      simp [hg1]
  · rintro ⟨v, hv⟩
    cases hc : regexCaptures s.data with
    | none => rw [from_str_invalid hc] at hv; cases hv
    | some caps =>
      obtain ⟨g1, g2⟩ := caps
      exact captures_grammar hc

theorem parse_ok_iff_grammar_witness : matchesGrammar "100m" :=
  (parse_ok_iff_grammar "100m").2.2 ⟨⟨100, "m"⟩, by with_unfolding_all rfl⟩

/-- C5 counterexample: the input built from the Arabic-Indic digit three
followed by m matches the whole-string grammar, yet the parser returns the
propagated float-parse failure rather than a Value, so "returns a Value
exactly when the input matches the grammar" is false as stated. -/
theorem parse_match_without_value :
    matchesGrammar "٣m" ∧ ∀ v : Value, from_str "٣m" ≠ .ok v := by
  constructor
  · refine ⟨[], ['٣'], ['m'], rfl, rfl, ?_, by decide, by decide⟩
    exact ⟨[], ['٣'], [], [], rfl, Or.inl rfl, by decide, by decide, Or.inl rfl, rfl⟩
  · intro v hv
    rw [show from_str "٣m" = .error ⟨"invalid float literal"⟩ from rfl] at hv
    cases hv

end Convr

namespace Convr

/-- C6 (amended): on success the quantity is the parsed numeric capture and
the unit is the lower-cased unit capture, which consists of one or more
characters other than the letter s extending to the end of the input:
whitespace between the number and the token can be consumed by the grammar
(witness the second conjunct), but trailing whitespace stays inside the
stored token. -/
theorem parse_output_decomposition :
    (∀ (s : String) (v : Value), from_str s = .ok v →
        ∃ w n mid u, s.data = w ++ n ++ mid ++ u ∧ w.all isWs ∧ numShape n ∧
          mid.all isWs ∧ u ≠ [] ∧ u.all (· != 's') ∧
          parseF64 n = some v.quantity ∧ v.unit = to_lowercase ⟨u⟩) ∧
    from_str "1 m" = .ok ⟨1, "m"⟩ :=
  ⟨fun _ _ h => from_str_ok_sound h, by with_unfolding_all rfl⟩

theorem parse_output_decomposition_witness :
    ∃ w n mid u, ("100m" : String).data = w ++ n ++ mid ++ u ∧ w.all isWs ∧
      numShape n ∧ mid.all isWs ∧ u ≠ [] ∧ u.all (· != 's') ∧
      parseF64 n = some (⟨(100 : ℚ), "m"⟩ : Value).quantity ∧
      (⟨(100 : ℚ), "m"⟩ : Value).unit = to_lowercase ⟨u⟩ :=
  parse_output_decomposition.1 "100m" ⟨100, "m"⟩ (by with_unfolding_all rfl)

/-- C6 counterexample: parsing the input 1 m with a trailing blank stores
the token with that trailing blank in it, so the stored token is not made
of non-whitespace characters only and trailing whitespace is not stripped. -/
theorem parse_trailing_ws_in_token :
    from_str "1 m " = .ok ⟨1, "m "⟩ ∧ ' ' ∈ ("m " : String).data :=
  ⟨by with_unfolding_all rfl, by decide⟩

/-- C10 (amended): for an input all of whose characters are ASCII, any
parse failure is the generic invalid-value error: an ASCII capture of the
numeric subexpression always parses as a float, so the float-failure
branch is reachable only through non-ASCII digits. -/
theorem parse_ascii_error_is_invalid_value (s : String)
    (hascii : ∀ c ∈ s.data, c.toNat < 128) :
    ∀ e : ParseValueError, from_str s = .error e → e = ⟨"invalid value"⟩ := by
  intro e he
  cases hc : regexCaptures s.data with
  | none =>
    rw [from_str_invalid hc] at he
    injection he with h1
    exact h1.symm
  | some caps =>
    obtain ⟨g1, g2⟩ := caps
    obtain ⟨w, mid, hdec, hw, hn, hmid, hne, hall⟩ := captures_sound hc
    have hg1ascii : ∀ c ∈ g1, c.toNat < 128 := by
      intro c hcg
      refine hascii c ?_
      rw [hdec]
      exact List.mem_append.mpr (Or.inl (List.mem_append.mpr
        (Or.inl (List.mem_append.mpr (Or.inr hcg)))))
    obtain ⟨q, hq⟩ := Option.isSome_iff_exists.mp (parseF64_isSome_of_ascii hn hg1ascii)
    rw [from_str_some hc, hq] at he
    cases he

theorem parse_ascii_error_is_invalid_value_witness :
    (∀ c ∈ ("zzz" : String).data, c.toNat < 128) ∧
    (⟨"invalid value"⟩ : ParseValueError) = ⟨"invalid value"⟩ :=
  ⟨by decide, parse_ascii_error_is_invalid_value "zzz" (by decide) ⟨"invalid value"⟩ rfl⟩

/-- C10 counterexample: the regex matches the Arabic-Indic digit one
followed by m (the Unicode-aware digit class of the regex crate includes
it), but the float parser rejects the capture, so the numeric-parse branch
is reachable and the parse failure is not the invalid-value error. -/
theorem parse_reachable_float_error :
    from_str "١m" = .error ⟨"invalid float literal"⟩ ∧
    (regexCaptures ("١m" : String).data).isSome ∧
    (⟨"invalid float literal"⟩ : ParseValueError) ≠ ⟨"invalid value"⟩ :=
  ⟨rfl, rfl, by decide⟩

end Convr

namespace Convr

/-- C8: unit lookup within a family is case-insensitive against names and
symbol (tokens equal up to case resolve identically), matches names ("METER")
as well as symbols ("m"), first match in unit order winning via find?; both
parse("1M") and parse("1m") produce the token m, which resolves to the meter
unit during conversion. -/
theorem find_unit_case_insensitive :
    (∀ (f : Family) (s t : String), to_lowercase s = to_lowercase t →
        f.find_unit s = f.find_unit t) ∧
    length.family.find_unit "m" = some (Unit.new ["meter", "meters"] "M" 1 0) ∧
    length.family.find_unit "METER" = some (Unit.new ["meter", "meters"] "M" 1 0) ∧
    from_str "1M" = .ok ⟨1, "m"⟩ ∧ from_str "1m" = .ok ⟨1, "m"⟩ ∧
    length.family.find_unit (⟨1, "m"⟩ : Value).unit
      = some (Unit.new ["meter", "meters"] "M" 1 0) :=
  ⟨fun f _ _ h => find_unit_congr f h, rfl, rfl,
    by with_unfolding_all rfl, by with_unfolding_all rfl, rfl⟩

theorem find_unit_case_insensitive_witness :
    to_lowercase "KM" = to_lowercase "km" ∧
    length.family.find_unit "KM" = length.family.find_unit "km" :=
  ⟨rfl, find_unit_case_insensitive.1 length.family "KM" "km" rfl⟩

end Convr
